import Mathlib

/-!
Shallow embedding of the realtime-chat-app server core:
`src/lib/messageStore.ts` (MessageStore), the UserManager and the
SocketManager rate limiter / disconnect handler.

JavaScript strings are modelled as `List Char`; `Date.now()` timestamps as
integers supplied explicitly; the JS `Map` (which iterates in insertion
order) as a list.
-/

namespace RTChat

/-- Coerce a Lean string literal to the `List Char` string model. -/
def cs (s : String) : List Char := s.data

/-- The set of characters matched by JavaScript `\s` / removed by
`String.prototype.trim`. -/
def isJsSpace (c : Char) : Bool :=
  c.toNat = 0x09 || c.toNat = 0x0A || c.toNat = 0x0B || c.toNat = 0x0C ||
  c.toNat = 0x0D || c.toNat = 0x20 || c.toNat = 0xA0 || c.toNat = 0x1680 ||
  (0x2000 ≤ c.toNat && c.toNat ≤ 0x200A) || c.toNat = 0x2028 ||
  c.toNat = 0x2029 || c.toNat = 0x202F || c.toNat = 0x205F ||
  c.toNat = 0x3000 || c.toNat = 0xFEFF

/-- JavaScript `String.prototype.trim`: strip leading and trailing
whitespace. -/
def jsTrim (l : List Char) : List Char :=
  ((l.dropWhile isJsSpace).reverse.dropWhile isJsSpace).reverse

/-- JavaScript `String.prototype.toLowerCase`, restricted to the ASCII
range (sufficient for the characters this app compares). -/
def jsToLower (l : List Char) : List Char := l.map Char.toLower

/-- JavaScript `String.prototype.includes`: substring containment. -/
def containsSub (l term : List Char) : Bool :=
  match l with
  | [] => term.isEmpty
  | _ :: xs => term.isPrefixOf l || containsSub xs term

/-- JavaScript `Array.prototype.slice(start)` with a single (possibly
negative) start argument. -/
def jsSliceFrom {α : Type} (arr : List α) (start : Int) : List α :=
  let len : Int := arr.length
  let s : Int := if start < 0 then max (len + start) 0 else min start len
  arr.drop s.toNat

/-- The last `n` elements of a list, in order (`arr.slice(-n)` for `n ≥ 1`). -/
def lastN {α : Type} (n : Nat) (l : List α) : List α := l.drop (l.length - n)

/-! ### Constants from `src/types/chat.ts` (`ValidationConstraints`) -/

def NICKNAME_MIN_LENGTH : Nat := 1
def NICKNAME_MAX_LENGTH : Nat := 20
def MESSAGE_MIN_LENGTH : Nat := 1
def MESSAGE_MAX_LENGTH : Nat := 500
def MAX_USERS : Nat := 50
def MAX_MESSAGES : Nat := 100
def RATE_LIMIT_PER_SECOND : Nat := 3

deriving instance DecidableEq for Except

/-- Error codes from `src/types/chat.ts` (`ErrorCodes`). -/
inductive Err where
  | INVALID_MESSAGE
  | INVALID_NICKNAME
  | NICKNAME_TAKEN
  | ROOM_FULL
  | RATE_LIMIT_EXCEEDED
  | CONNECTION_ERROR
deriving DecidableEq, Repr

/-! ### MessageStore (`src/lib/messageStore.ts`)

A `Message`'s random UUID and wall-clock timestamp play no role in any
claim; the stored fields that do are kept. The store state is the
`messages` array. -/

structure Message where
  userId : List Char
  nickname : List Char
  message : List Char
deriving DecidableEq, Repr

/-- The control characters rejected by `validateMessage`
(`[\x00-\x08\x0B\x0C\x0E-\x1F\x7F]`; newline and tab are allowed). -/
def isForbiddenControl (c : Char) : Bool :=
  c.toNat ≤ 0x08 || c.toNat = 0x0B || c.toNat = 0x0C ||
  (0x0E ≤ c.toNat && c.toNat ≤ 0x1F) || c.toNat = 0x7F

/-- `MessageStore.validateMessage`: empty/non-string check, trimmed length
bounds, forbidden control characters (tested on the untrimmed input). -/
def validateMessage (message : List Char) : Except Err Unit :=
  if message.isEmpty then .error .INVALID_MESSAGE
  else
    let trimmed := jsTrim message
    if trimmed.length < MESSAGE_MIN_LENGTH || MESSAGE_MAX_LENGTH < trimmed.length then
      .error .INVALID_MESSAGE
    else if message.any isForbiddenControl then .error .INVALID_MESSAGE
    else .ok ()

/-- One global-replace pass `str.replace(/c/g, rep)` for a single-character
pattern. -/
def replAll (l : List Char) (c : Char) (rep : List Char) : List Char :=
  l.flatMap (fun x => if x = c then rep else [x])

/-- `MessageStore.sanitizeMessage`: the six sequential global replaces, in
source order. -/
def sanitizeMessage (message : List Char) : List Char :=
  replAll (replAll (replAll (replAll (replAll (replAll
    message '&' (cs "&amp;")) '<' (cs "&lt;")) '>' (cs "&gt;"))
    '"' (cs "&quot;")) (Char.ofNat 39) (cs "&#x27;")) '/' (cs "&#x2F;")

/-- The message object built by `MessageStore.addMessage` (nickname
trimmed, body trimmed then sanitized). -/
def mkMessageObj (userId nickname message : List Char) : Message :=
  ⟨userId, jsTrim nickname, sanitizeMessage (jsTrim message)⟩

/-- `MessageStore.addMessage`: validate, build the object, push it, then
`splice(0, length - MAX_MESSAGES)` when over the cap. Returns the result
(or thrown error) together with the store state after the call; a thrown
validation error leaves the state untouched. -/
def addMessage (messages : List Message) (userId nickname message : List Char) :
    Except Err Message × List Message :=
  match validateMessage message with
  | .error e => (.error e, messages)
  | .ok _ =>
    let messageObj := mkMessageObj userId nickname message
    let pushed := messages ++ [messageObj]
    if MAX_MESSAGES < pushed.length then
      (.ok messageObj, pushed.drop (pushed.length - MAX_MESSAGES))
    else
      (.ok messageObj, pushed)

/-- `MessageStore.getRecentMessages`:
`slice(-Math.min(Math.max(1, limit), messages.length))`. -/
def getRecentMessages (messages : List Message) (limit : Int) : List Message :=
  let actualLimit : Int := min (max 1 limit) (messages.length : Int)
  jsSliceFrom messages (-actualLimit)

/-- The per-message match test of `MessageStore.searchMessages`, given the
already lowercased-and-trimmed term. -/
def messageMatches (term : List Char) (msg : Message) : Bool :=
  containsSub (jsToLower msg.message) term || containsSub (jsToLower msg.nickname) term

/-- `MessageStore.searchMessages`: falsy/empty-after-trim guards, then
`filter(...).slice(-limit)`. -/
def searchMessages (messages : List Message) (searchTerm : List Char) (limit : Int) :
    List Message :=
  if searchTerm.isEmpty then []
  else
    let term := jsTrim (jsToLower searchTerm)
    if term.length = 0 then []
    else jsSliceFrom (messages.filter (messageMatches term)) (-limit)

/-- Folding `addMessage` over a list of `(userId, nickname, message)`
inputs (state after a sequence of append calls; failed calls keep the
state). -/
def foldAppend (messages : List Message)
    (inputs : List (List Char × List Char × List Char)) : List Message :=
  inputs.foldl (fun st i => (addMessage st i.1 i.2.1 i.2.2).2) messages

/-! ### UserManager (`src/unnamed/part_003`, `UserManager`)

The `users: Map<string, User>` is modelled as a list in insertion order
(JS `Map` iterates in insertion order); `joinedAt` (`new Date()`) is an
integer timestamp supplied by the caller. -/

structure User where
  id : List Char
  nickname : List Char
  joinedAt : Int
deriving DecidableEq, Repr

/-- The character class of `validateNickname`'s pattern
`/^[a-zA-Z0-9぀-ゟ゠-ヿ一-龯㐀-䶿\s\-_]+$/`. -/
def isNickChar (c : Char) : Bool :=
  (0x41 ≤ c.toNat && c.toNat ≤ 0x5A) || (0x61 ≤ c.toNat && c.toNat ≤ 0x7A) ||
  (0x30 ≤ c.toNat && c.toNat ≤ 0x39) ||
  (0x3040 ≤ c.toNat && c.toNat ≤ 0x309F) || (0x30A0 ≤ c.toNat && c.toNat ≤ 0x30FF) ||
  (0x4E00 ≤ c.toNat && c.toNat ≤ 0x9FAF) || (0x3400 ≤ c.toNat && c.toNat ≤ 0x4DBF) ||
  isJsSpace c || c = '-' || c = '_'

/-- JavaScript `str.replace(/\s+/g, ' ')`: collapse each run of whitespace
to a single space. -/
def collapseSpaces (l : List Char) : List Char :=
  (l.foldl
    (fun acc c =>
      if isJsSpace c then (if acc.2 then acc else (acc.1 ++ [' '], true))
      else (acc.1 ++ [c], false))
    (([] : List Char), false)).1

/-- `UserManager.validateNickname`: empty check, trimmed length in
[1, 20], character whitelist, and no internal whitespace runs
(`trimmed !== nickname.replace(/\s+/g, ' ').trim()`). -/
def validateNickname (nickname : List Char) : Except Err Unit :=
  if nickname.isEmpty then .error .INVALID_NICKNAME
  else
    let trimmed := jsTrim nickname
    if trimmed.length < NICKNAME_MIN_LENGTH || NICKNAME_MAX_LENGTH < trimmed.length then
      .error .INVALID_NICKNAME
    else if !trimmed.all isNickChar then .error .INVALID_NICKNAME
    else if trimmed ≠ jsTrim (collapseSpaces nickname) then .error .INVALID_NICKNAME
    else .ok ()

/-- `UserManager.isNicknameExists`: case-insensitive comparison of each
stored nickname against the trimmed, lowercased candidate. -/
def isNicknameExists (users : List User) (nickname : List Char) : Bool :=
  let trimmedNickname := jsToLower (jsTrim nickname)
  users.any (fun u => jsToLower u.nickname = trimmedNickname)

/-- JS `Map.set` on the insertion-order list model: replace in place when
the key exists, else append. -/
def mapSet (users : List User) (user : User) : List User :=
  if users.any (fun v => v.id = user.id) then
    users.map (fun v => if v.id = user.id then user else v)
  else users ++ [user]

/-- `UserManager.addUser`: validate, duplicate-nickname check, room-full
check, then store the user (nickname trimmed, `joinedAt := now`). -/
def addUser (users : List User) (socketId nickname : List Char) (now : Int) :
    Except Err (User × List User) :=
  match validateNickname nickname with
  | .error e => .error e
  | .ok _ =>
    if isNicknameExists users nickname then .error .NICKNAME_TAKEN
    else if MAX_USERS ≤ users.length then .error .ROOM_FULL
    else
      let user : User := ⟨socketId, jsTrim nickname, now⟩
      .ok (user, mapSet users user)

/-- `UserManager.removeUser`: `get` then `delete` when present, else
return null; the second component is the map state after the call. -/
def removeUser (users : List User) (socketId : List Char) :
    Option User × List User :=
  match users.find? (fun u => u.id = socketId) with
  | some user => (some user, users.filter (fun u => u.id ≠ socketId))
  | none => (none, users)

/-- `UserManager.getAllNicknames`: sort the map values by `joinedAt`
ascending (JS `Array.prototype.sort` is stable; modelled by the stable
`insertionSort`) and project the nicknames. -/
def getAllNicknames (users : List User) : List (List Char) :=
  (users.insertionSort (fun a b => a.joinedAt ≤ b.joinedAt)).map (fun u => u.nickname)

/-! ### SocketManager (`src/unnamed/part_003`, `SocketManager`) -/

def RATE_LIMIT_WINDOW_MS : Int := 1000

/-- `SocketManager.checkRateLimit` for one connection: `timestamps` is the
entry of `rateLimitMap` for this socket, `now` is `Date.now()`. Returns
the boolean result and the map entry after the call (unchanged when the
limit is hit, since the purged list is not written back). -/
def checkRateLimit (timestamps : List Int) (now : Int) : Bool × List Int :=
  let recentTimestamps := timestamps.filter (fun t => now - t < RATE_LIMIT_WINDOW_MS)
  if RATE_LIMIT_PER_SECOND ≤ recentTimestamps.length then (false, timestamps)
  else (true, recentTimestamps ++ [now])

/-- The broadcasts `handleDisconnect` can emit. -/
inductive SEvent where
  | userLeft (nickname : List Char)
  | updateUsers (users : List (List Char))
deriving DecidableEq, Repr

/-- `SocketManager.handleDisconnect`: remove the user; only when one was
removed, broadcast `user-left` and `update-users`. Returns the user-map
state after the call and the emitted broadcasts. -/
def handleDisconnect (users : List User) (socketId : List Char) :
    List User × List SEvent :=
  match removeUser users socketId with
  | (some user, users') =>
    (users', [.userLeft user.nickname, .updateUsers (getAllNicknames users')])
  | (none, users') => (users', [])

/-- States of the user registry reachable by `addUser` / `removeUser`
from the empty room. -/
inductive Reachable : List User → Prop where
  | empty : Reachable []
  | add {s : List User} {id nick : List Char} {now : Int} {u : User} {s' : List User} :
      Reachable s → addUser s id nick now = .ok (u, s') → Reachable s'
  | remove {s : List User} {id : List Char} :
      Reachable s → Reachable (removeUser s id).2

/-- The registry invariant: stored nicknames are pairwise distinct
case-insensitively, and socket ids are pairwise distinct. -/
def RegistryInv (users : List User) : Prop :=
  (users.map (fun u => jsToLower u.nickname)).Pairwise (· ≠ ·) ∧
  (users.map (fun u => u.id)).Pairwise (· ≠ ·)

end RTChat

namespace RTChat

/-! ### Spec-side definitions used by refinement statements -/

/-- Per-character escape map as the spec describes sanitization: each
escaped character is replaced by its HTML entity, every other character is
kept unchanged. -/
def escapeSpec (c : Char) : List Char :=
  if c = '&' then cs "&amp;"
  else if c = '<' then cs "&lt;"
  else if c = '>' then cs "&gt;"
  else if c = '"' then cs "&quot;"
  else if c = Char.ofNat 39 then cs "&#x27;"
  else if c = '/' then cs "&#x2F;"
  else [c]

/-! ### Helper lemmas -/

theorem jsSliceFrom_neg {α : Type} (l : List α) (n : Int) (hn : 1 ≤ n) :
    jsSliceFrom l (-n) = lastN n.toNat l := by
  unfold jsSliceFrom lastN
  dsimp only
  rw [if_pos (show -n < (0 : Int) by omega)]
  congr 1
  omega

theorem getRecentMessages_eq (msgs : List Message) (limit : Int) :
    getRecentMessages msgs limit = lastN (min (max 1 limit).toNat msgs.length) msgs := by
  unfold getRecentMessages jsSliceFrom lastN
  dsimp only
  split
  · congr 1
    omega
  · have hlen : msgs.length = 0 := by omega
    rw [List.length_eq_zero.mp hlen]
    simp

theorem replAll_append (a b : List Char) (c : Char) (rep : List Char) :
    replAll (a ++ b) c rep = replAll a c rep ++ replAll b c rep := by
  simp [replAll]

theorem sanitizeMessage_append (a b : List Char) :
    sanitizeMessage (a ++ b) = sanitizeMessage a ++ sanitizeMessage b := by
  simp [sanitizeMessage, replAll_append]

theorem sanitizeMessage_single (c : Char) : sanitizeMessage [c] = escapeSpec c := by
  by_cases h1 : c = '&'
  · subst h1; decide
  by_cases h2 : c = '<'
  · subst h2; decide
  by_cases h3 : c = '>'
  · subst h3; decide
  by_cases h4 : c = '"'
  · subst h4; decide
  by_cases h5 : c = Char.ofNat 39
  · subst h5; decide
  by_cases h6 : c = '/'
  · subst h6; decide
  simp [sanitizeMessage, replAll, escapeSpec, h1, h2, h3, h4, h5, h6]

theorem sanitizeMessage_eq_flatMap (m : List Char) :
    sanitizeMessage m = m.flatMap escapeSpec := by
  induction m with
  | nil => rfl
  | cons c t ih =>
    have : (c :: t) = [c] ++ t := rfl
    rw [this, sanitizeMessage_append, sanitizeMessage_single, List.flatMap_append, ih]
    simp

end RTChat
namespace RTChat

theorem containsSub_correct (l t : List Char) :
    containsSub l t = true ↔ t <:+: l := by
  induction l with
  | nil => simp [containsSub]
  | cons x xs ih =>
    rw [containsSub, Bool.or_eq_true, List.isPrefixOf_iff_prefix, ih,
      List.infix_cons_iff]

/-- C1 (counterexample): appending the body `<b>hi</b>` and reading it back
with `recent(1)` does not store `&lt;b&gt;hi&lt;/b&gt;` — the slash is also
escaped, so the stored body is `&lt;b&gt;hi&lt;&#x2F;b&gt;`, refuting the
claim that exactly the five characters `& < > " '` are escaped. -/
theorem C1_five_escapes_counterexample :
    (getRecentMessages (addMessage [] (cs "u1") (cs "alice") (cs "<b>hi</b>")).2 1).map
      Message.message = [cs "&lt;b&gt;hi&lt;&#x2F;b&gt;"] ∧
    cs "&lt;b&gt;hi&lt;&#x2F;b&gt;" ≠ cs "&lt;b&gt;hi&lt;/b&gt;" := by
  constructor
  · decide
  · decide

/-- C1 (amended): `sanitizeMessage` escapes exactly the six characters
`& < > " ' /` in the trimmed body — each is replaced by its HTML entity and
every other character is kept unchanged (the whole pass equals a single
per-character `flatMap` of `escapeSpec`); appending `<b>hi</b>` followed by
`recent(1)` returns exactly that message with stored body
`&lt;b&gt;hi&lt;&#x2F;b&gt;`. -/
theorem C1_sanitize_escapes_six :
    (∀ m : List Char, sanitizeMessage m = m.flatMap escapeSpec) ∧
    (getRecentMessages (addMessage [] (cs "u1") (cs "alice") (cs "<b>hi</b>")).2 1).map
      Message.message = [cs "&lt;b&gt;hi&lt;&#x2F;b&gt;"] := by
  constructor
  · exact sanitizeMessage_eq_flatMap
  · decide

/-- C2 (counterexample): with two stored messages that both match the term
`x`, `searchMessages` returns them oldest-first, not most-recent-first. -/
theorem C2_search_order_counterexample :
    searchMessages [⟨cs "u1", cs "alice", cs "xa"⟩, ⟨cs "u2", cs "bob", cs "xb"⟩]
      (cs "x") 10 =
      [⟨cs "u1", cs "alice", cs "xa"⟩, ⟨cs "u2", cs "bob", cs "xb"⟩] ∧
    [(⟨cs "u1", cs "alice", cs "xa"⟩ : Message), ⟨cs "u2", cs "bob", cs "xb"⟩] ≠
      [⟨cs "u2", cs "bob", cs "xb"⟩, ⟨cs "u1", cs "alice", cs "xa"⟩] := by
  constructor
  · decide
  · decide

/-- C2 (amended): for `limit ≥ 1`, `searchMessages` keeps the stored
messages whose lowercased body or nickname contains the lowercased trimmed
term, and returns the last `limit` of those matches in chronological
(oldest-first) order; a term that is empty or whitespace-only (trimming to
the empty string) yields the empty result. The match test agrees with
substring containment (`List.IsInfix`). -/
theorem C2_search_matches_lastN :
    (∀ (msgs : List Message) (term : List Char) (limit : Int),
      jsTrim (jsToLower term) = [] → searchMessages msgs term limit = []) ∧
    (∀ (msgs : List Message) (term : List Char) (limit : Int), 1 ≤ limit →
      jsTrim (jsToLower term) ≠ [] →
      searchMessages msgs term limit =
        lastN limit.toNat (msgs.filter (messageMatches (jsTrim (jsToLower term))))) ∧
    (∀ (t : List Char) (msg : Message),
      messageMatches t msg = true ↔
        (t <:+: jsToLower msg.message ∨ t <:+: jsToLower msg.nickname)) := by
  refine ⟨?_, ?_, ?_⟩
  · intro msgs term limit h
    unfold searchMessages
    split
    · rfl
    · rw [h]
      simp
  · intro msgs term limit hlim h
    unfold searchMessages
    split
    · rename_i hemp
      exfalso
      apply h
      have : term = [] := by
        cases term with
        | nil => rfl
        | cons c t => simp at hemp
      rw [this]
      rfl
    · dsimp only
      rw [if_neg (by simpa using h), jsSliceFrom_neg _ _ hlim]
  · intro t msg
    unfold messageMatches
    rw [Bool.or_eq_true, containsSub_correct, containsSub_correct]

end RTChat
namespace RTChat

/-- C9: `getRecentMessages(limit)` returns the last
`min(limit, size)` stored messages in oldest-first order (a suffix of the
store, here via `lastN`), with `limit` clamped to at least 1; on an empty
log it returns the empty sequence. -/
theorem C9_recent_lastN :
    (∀ (msgs : List Message) (limit : Int),
      getRecentMessages msgs limit = lastN (min (max 1 limit).toNat msgs.length) msgs) ∧
    (∀ limit : Int, getRecentMessages [] limit = []) := by
  constructor
  · exact getRecentMessages_eq
  · intro limit
    rw [getRecentMessages_eq]
    simp [lastN]

/-- C10: whenever message validation fails — trimmed body empty, trimmed
length above 500, or a forbidden control character present — `addMessage`
returns the `invalid-message` error and leaves the message log completely
unchanged (same state, hence same count, no eviction). -/
theorem C10_invalid_message_no_mutation
    (s : List Message) (userId nickname m : List Char)
    (h : (jsTrim m).length < MESSAGE_MIN_LENGTH ∨
         MESSAGE_MAX_LENGTH < (jsTrim m).length ∨
         m.any isForbiddenControl = true) :
    addMessage s userId nickname m = (.error .INVALID_MESSAGE, s) := by
  have hv : validateMessage m = .error .INVALID_MESSAGE := by
    unfold validateMessage
    dsimp only
    split_ifs with h1 h2 h3
    · rfl
    · rfl
    · rfl
    · exfalso
      simp only [Bool.or_eq_true, decide_eq_true_eq, not_or, not_lt] at h2
      rcases h with h | h | h
      · omega
      · omega
      · exact h3 h
  unfold addMessage
  rw [hv]

/-- C10 witness: the empty body fails validation and leaves the store
untouched. -/
theorem C10_invalid_message_no_mutation_witness :
    addMessage [] (cs "u1") (cs "alice") (cs "") =
      (.error .INVALID_MESSAGE, []) :=
  C10_invalid_message_no_mutation [] (cs "u1") (cs "alice") (cs "") (by decide)

end RTChat
namespace RTChat

theorem lastN_append_lastN {α : Type} (n : Nat) (a b : List α) :
    lastN n (lastN n a ++ b) = lastN n (a ++ b) := by
  unfold lastN
  rw [List.drop_append_eq_append_drop, List.drop_append_eq_append_drop,
    List.drop_drop]
  simp only [List.length_append, List.length_drop]
  congr 2 <;> omega

theorem addMessage_ok_state (s : List Message) (u n m : List Char)
    (h : validateMessage m = .ok ()) :
    (addMessage s u n m).2 = lastN MAX_MESSAGES (s ++ [mkMessageObj u n m]) := by
  unfold addMessage
  rw [h]
  dsimp only
  split_ifs with h1
  · rfl
  · unfold lastN
    rw [Nat.sub_eq_zero_of_le (by omega), List.drop_zero]

theorem addMessage_length_le (s : List Message) (u n m : List Char)
    (h : s.length ≤ MAX_MESSAGES) :
    (addMessage s u n m).2.length ≤ MAX_MESSAGES := by
  unfold addMessage
  cases hv : validateMessage m with
  | error e => exact h
  | ok v =>
    dsimp only
    split_ifs with h1
    · simp only [List.length_drop]
      omega
    · simp only [List.length_append] at h1 ⊢
      omega

theorem foldAppend_lastN (inputs : List (List Char × List Char × List Char))
    (a : List Message)
    (h : ∀ i ∈ inputs, validateMessage i.2.2 = .ok ()) :
    foldAppend (lastN MAX_MESSAGES a) inputs =
      lastN MAX_MESSAGES (a ++ inputs.map (fun i => mkMessageObj i.1 i.2.1 i.2.2)) := by
  induction inputs generalizing a with
  | nil => simp [foldAppend]
  | cons i is ih =>
    have hstep : (addMessage (lastN MAX_MESSAGES a) i.1 i.2.1 i.2.2).2 =
        lastN MAX_MESSAGES (a ++ [mkMessageObj i.1 i.2.1 i.2.2]) := by
      rw [addMessage_ok_state _ _ _ _ (h i (by simp)), lastN_append_lastN]
    have : foldAppend (lastN MAX_MESSAGES a) (i :: is) =
        foldAppend (lastN MAX_MESSAGES (a ++ [mkMessageObj i.1 i.2.1 i.2.2])) is := by
      unfold foldAppend
      rw [List.foldl_cons, hstep]
    rw [this, ih (a ++ [mkMessageObj i.1 i.2.1 i.2.2]) (fun j hj => h j (by simp [hj]))]
    simp

/-- C4: the message log is FIFO-bounded. Starting from any state of at
most 100 messages, any sequence of append calls leaves at most 100
messages; for valid inputs the state from the empty log is exactly the
last 100 created message objects in insertion order (oldest evicted
first); and after 105 valid appends, `recent(100)` returns messages
6 through 105 in order. -/
theorem C4_fifo_bound :
    (∀ (inputs : List (List Char × List Char × List Char)) (s : List Message),
      s.length ≤ MAX_MESSAGES → (foldAppend s inputs).length ≤ MAX_MESSAGES) ∧
    (∀ inputs : List (List Char × List Char × List Char),
      (∀ i ∈ inputs, validateMessage i.2.2 = .ok ()) →
      foldAppend [] inputs =
        lastN MAX_MESSAGES (inputs.map (fun i => mkMessageObj i.1 i.2.1 i.2.2))) ∧
    (∀ inputs : List (List Char × List Char × List Char),
      (∀ i ∈ inputs, validateMessage i.2.2 = .ok ()) → inputs.length = 105 →
      getRecentMessages (foldAppend [] inputs) 100 =
        (inputs.map (fun i => mkMessageObj i.1 i.2.1 i.2.2)).drop 5) := by
  have hbound : ∀ (inputs : List (List Char × List Char × List Char)) (s : List Message),
      s.length ≤ MAX_MESSAGES → (foldAppend s inputs).length ≤ MAX_MESSAGES := by
    intro inputs
    induction inputs with
    | nil => intro s hs; exact hs
    | cons i is ih =>
      intro s hs
      exact ih _ (addMessage_length_le s i.1 i.2.1 i.2.2 hs)
  have hfold : ∀ inputs : List (List Char × List Char × List Char),
      (∀ i ∈ inputs, validateMessage i.2.2 = .ok ()) →
      foldAppend [] inputs =
        lastN MAX_MESSAGES (inputs.map (fun i => mkMessageObj i.1 i.2.1 i.2.2)) := by
    intro inputs h
    have := foldAppend_lastN inputs [] h
    simpa [lastN] using this
  refine ⟨hbound, hfold, ?_⟩
  intro inputs h h105
  rw [hfold inputs h, getRecentMessages_eq]
  have hmaplen : (inputs.map (fun i => mkMessageObj i.1 i.2.1 i.2.2)).length = 105 := by
    simp [h105]
  unfold lastN
  rw [List.length_drop, hmaplen, List.drop_drop]
  norm_num [MAX_MESSAGES]

/-- C4 witness: 105 identical valid appends from the empty log, read back
with `recent(100)`. -/
theorem C4_fifo_bound_witness :
    getRecentMessages
        (foldAppend [] (List.replicate 105 (cs "u1", cs "alice", cs "hey"))) 100 =
      ((List.replicate 105 (cs "u1", cs "alice", cs "hey")).map
        (fun i => mkMessageObj i.1 i.2.1 i.2.2)).drop 5 :=
  C4_fifo_bound.2.2 (List.replicate 105 (cs "u1", cs "alice", cs "hey"))
    (by decide) (by decide)

end RTChat
namespace RTChat

/-- C3: `checkRateLimit` purges timestamps older than the 1-second window
and refuses (without recording) exactly when 3 or more remain, otherwise
records `now`; consequently, for 4 sends within 1 second from one
connection the 4th call returns false, and a call made more than 1 second
after the first returns true. -/
theorem C3_rate_limit :
    (∀ (ts : List Int) (now : Int),
      ((checkRateLimit ts now).1 = false ↔
        RATE_LIMIT_PER_SECOND ≤
          (ts.filter (fun t => now - t < RATE_LIMIT_WINDOW_MS)).length) ∧
      ((checkRateLimit ts now).1 = false → (checkRateLimit ts now).2 = ts) ∧
      ((checkRateLimit ts now).1 = true →
        (checkRateLimit ts now).2 =
          ts.filter (fun t => now - t < RATE_LIMIT_WINDOW_MS) ++ [now])) ∧
    (∀ t0 t1 t2 t3 t4 : Int, t0 ≤ t1 → t1 ≤ t2 → t2 ≤ t3 →
      t3 - t0 < RATE_LIMIT_WINDOW_MS → RATE_LIMIT_WINDOW_MS < t4 - t0 →
      checkRateLimit [] t0 = (true, [t0]) ∧
      checkRateLimit [t0] t1 = (true, [t0, t1]) ∧
      checkRateLimit [t0, t1] t2 = (true, [t0, t1, t2]) ∧
      checkRateLimit [t0, t1, t2] t3 = (false, [t0, t1, t2]) ∧
      (checkRateLimit [t0, t1, t2] t4).1 = true) := by
  constructor
  · intro ts now
    unfold checkRateLimit
    dsimp only
    split_ifs with hc
    · simp [hc]
    · simp [hc]
  · intro t0 t1 t2 t3 t4 h01 h12 h23 hwin hlate
    simp only [RATE_LIMIT_WINDOW_MS] at hwin hlate
    refine ⟨?_, ?_, ?_, ?_, ?_⟩
    · simp [checkRateLimit, RATE_LIMIT_PER_SECOND]
    · simp [checkRateLimit, RATE_LIMIT_PER_SECOND, RATE_LIMIT_WINDOW_MS,
        List.filter_cons, show t1 - t0 < (1000 : Int) by omega]
    · simp [checkRateLimit, RATE_LIMIT_PER_SECOND, RATE_LIMIT_WINDOW_MS,
        List.filter_cons, show t2 - t0 < (1000 : Int) by omega,
        show t2 - t1 < (1000 : Int) by omega]
    · simp [checkRateLimit, RATE_LIMIT_PER_SECOND, RATE_LIMIT_WINDOW_MS,
        List.filter_cons, show t3 - t0 < (1000 : Int) by omega,
        show t3 - t1 < (1000 : Int) by omega,
        show t3 - t2 < (1000 : Int) by omega]
    · unfold checkRateLimit
      dsimp only
      rw [List.filter_cons_of_neg (by simpa using show ¬(t4 - t0 < (1000 : Int)) by omega)]
      rw [if_neg ?hlen]
      case hlen =>
        have hle := List.length_filter_le
          (fun t => decide (t4 - t < RATE_LIMIT_WINDOW_MS)) [t1, t2]
        simp only [List.length_cons, List.length_nil] at hle
        simp only [RATE_LIMIT_PER_SECOND]
        omega

/-- C3 witness: four sends at 0, 100, 200, 300 ms (the 4th refused) and a
fifth at 1500 ms (allowed). -/
theorem C3_rate_limit_witness :
    checkRateLimit [] 0 = (true, [0]) ∧
    checkRateLimit [0] 100 = (true, [0, 100]) ∧
    checkRateLimit [0, 100] 200 = (true, [0, 100, 200]) ∧
    checkRateLimit [0, 100, 200] 300 = (false, [0, 100, 200]) ∧
    (checkRateLimit [0, 100, 200] 1500).1 = true :=
  C3_rate_limit.2 0 100 200 300 1500 (by decide) (by decide) (by decide)
    (by decide) (by decide)

end RTChat
namespace RTChat

/-- C6: for a valid, non-duplicate nickname, `addUser` succeeds if and
only if the active participant count is strictly below `MAX_USERS` (50);
in particular at 50 (or more) active participants the next distinct join
fails with `room-full`. -/
theorem C6_room_capacity (s : List User) (id nick : List Char) (now : Int)
    (hval : validateNickname nick = .ok ())
    (hdup : isNicknameExists s nick = false) :
    ((∃ u s', addUser s id nick now = .ok (u, s')) ↔ s.length < MAX_USERS) ∧
    (MAX_USERS ≤ s.length → addUser s id nick now = .error .ROOM_FULL) := by
  unfold addUser
  rw [hval]
  dsimp only
  rw [if_neg (by simp [hdup])]
  split_ifs with h
  · exact ⟨iff_of_false (by simp) (Nat.not_lt.mpr h), fun _ => rfl⟩
  · exact ⟨iff_of_true ⟨_, _, rfl⟩ (Nat.not_le.mp h), fun hge => absurd hge h⟩

/-- C6 witness: a room of 50 participants rejects the 51st distinct join
with `room-full`. -/
theorem C6_room_capacity_witness :
    addUser (List.replicate 50 ⟨cs "c0", cs "smith", 0⟩) (cs "c51") (cs "zz") 5 =
      .error .ROOM_FULL :=
  (C6_room_capacity (List.replicate 50 ⟨cs "c0", cs "smith", 0⟩) (cs "c51")
    (cs "zz") 5 (by decide) (by decide)).2 (by decide)

/-- C8: `removeUser` removes and returns the participant when present and
returns none (no error) when absent, so a double leave is a no-op; and a
disconnect on a connection that never joined removes nobody and emits no
`user-left` / `update-users` broadcast. -/
theorem C8_leave_idempotent :
    (∀ (s : List User) (id : List Char) (u : User),
      s.find? (fun v => v.id = id) = some u →
      (removeUser s id).1 = some u ∧
      (∀ v ∈ (removeUser s id).2, v.id ≠ id) ∧
      removeUser (removeUser s id).2 id = (none, (removeUser s id).2)) ∧
    (∀ (s : List User) (id : List Char),
      s.find? (fun v => v.id = id) = none → removeUser s id = (none, s)) ∧
    (∀ (s : List User) (id : List Char), (∀ v ∈ s, v.id ≠ id) →
      handleDisconnect s id = (s, [])) := by
  have hrem_none : ∀ (s : List User) (id : List Char),
      s.find? (fun v => v.id = id) = none → removeUser s id = (none, s) := by
    intro s id h
    unfold removeUser
    rw [h]
  refine ⟨?_, hrem_none, ?_⟩
  · intro s id u h
    have h2 : removeUser s id = (some u, s.filter (fun v => v.id ≠ id)) := by
      unfold removeUser
      rw [h]
    refine ⟨by rw [h2], ?_, ?_⟩
    · intro v hv
      rw [h2] at hv
      simpa using (List.mem_filter.mp hv).2
    · apply hrem_none
      rw [h2]
      refine List.find?_eq_none.mpr ?_
      intro v hv
      simpa using (List.mem_filter.mp hv).2
  · intro s id h
    have hn : s.find? (fun v => v.id = id) = none :=
      List.find?_eq_none.mpr (fun x hx => by simpa using h x hx)
    unfold handleDisconnect
    rw [hrem_none s id hn]

/-- C8 witness: leaving an existing connection returns the participant and
empties the room, a second leave returns none, and a disconnect of a
never-joined connection changes nothing and broadcasts nothing. -/
theorem C8_leave_idempotent_witness :
    ((removeUser [⟨cs "c1", cs "alice", 0⟩] (cs "c1")).1 = some ⟨cs "c1", cs "alice", 0⟩ ∧
      (∀ v ∈ (removeUser [⟨cs "c1", cs "alice", 0⟩] (cs "c1")).2, v.id ≠ cs "c1") ∧
      removeUser (removeUser [⟨cs "c1", cs "alice", 0⟩] (cs "c1")).2 (cs "c1") =
        (none, (removeUser [⟨cs "c1", cs "alice", 0⟩] (cs "c1")).2)) ∧
    handleDisconnect [⟨cs "c1", cs "alice", 0⟩] (cs "ghost") =
      ([⟨cs "c1", cs "alice", 0⟩], []) :=
  ⟨C8_leave_idempotent.1 [⟨cs "c1", cs "alice", 0⟩] (cs "c1")
      ⟨cs "c1", cs "alice", 0⟩ (by decide),
   C8_leave_idempotent.2.2 [⟨cs "c1", cs "alice", 0⟩] (cs "ghost") (by decide)⟩

end RTChat
namespace RTChat

theorem addUser_ok (s : List User) (id nick : List Char) (now : Int)
    (hval : validateNickname nick = .ok ())
    (hdup : isNicknameExists s nick = false)
    (hlen : s.length < MAX_USERS)
    (hid : ∀ v ∈ s, v.id ≠ id) :
    addUser s id nick now =
      .ok (⟨id, jsTrim nick, now⟩, s ++ [⟨id, jsTrim nick, now⟩]) := by
  unfold addUser
  rw [hval]
  dsimp only
  rw [if_neg (by simp [hdup]), if_neg (Nat.not_le.mpr hlen)]
  unfold mapSet
  rw [if_neg (by simpa using hid)]

theorem addUser_ok_cases {s : List User} {id nick : List Char} {now : Int}
    {u : User} {s' : List User}
    (h : addUser s id nick now = .ok (u, s')) :
    validateNickname nick = .ok () ∧ isNicknameExists s nick = false ∧
    s.length < MAX_USERS ∧ u = ⟨id, jsTrim nick, now⟩ ∧
    s' = mapSet s ⟨id, jsTrim nick, now⟩ := by
  unfold addUser at h
  cases hval : validateNickname nick with
  | error e => rw [hval] at h; exact absurd h (by simp)
  | ok v =>
    obtain ⟨⟩ := v
    rw [hval] at h
    dsimp only at h
    split_ifs at h with h1 h2
    rw [Except.ok.injEq, Prod.mk.injEq] at h
    exact ⟨rfl, by simpa using h1, Nat.not_le.mp h2, h.1.symm, h.2.symm⟩

/-- C7: `getAllNicknames` lists the active participants' nicknames in join
order: whenever the stored `joinedAt` keys are nondecreasing in insertion
order, the stable sort is the identity; in particular after joins of A, B,
C (in that order, from the empty room) it returns `["A", "B", "C"]`.
Read-only operations are pure functions of the state in this model, so
they cannot change the result. -/
theorem C7_nicknames_join_order :
    (∀ s : List User, s.Pairwise (fun a b => a.joinedAt ≤ b.joinedAt) →
      getAllNicknames s = s.map (fun u => u.nickname)) ∧
    (∀ (idA idB idC : List Char) (tA tB tC : Int),
      idA ≠ idB → idA ≠ idC → idB ≠ idC → tA ≤ tB → tB ≤ tC →
      ∃ uA s1 uB s2 uC s3,
        addUser [] idA (cs "A") tA = .ok (uA, s1) ∧
        addUser s1 idB (cs "B") tB = .ok (uB, s2) ∧
        addUser s2 idC (cs "C") tC = .ok (uC, s3) ∧
        getAllNicknames s3 = [cs "A", cs "B", cs "C"]) := by
  have hsorted : ∀ s : List User, s.Pairwise (fun a b => a.joinedAt ≤ b.joinedAt) →
      getAllNicknames s = s.map (fun u => u.nickname) := by
    intro s h
    unfold getAllNicknames
    rw [List.Sorted.insertionSort_eq h]
  refine ⟨hsorted, ?_⟩
  intro idA idB idC tA tB tC hAB hAC hBC htAB htBC
  have htA : jsTrim (cs "A") = cs "A" := by decide
  have htB : jsTrim (cs "B") = cs "B" := by decide
  have htC : jsTrim (cs "C") = cs "C" := by decide
  have h1 : addUser [] idA (cs "A") tA =
      .ok (⟨idA, cs "A", tA⟩, [⟨idA, cs "A", tA⟩]) := by
    have := addUser_ok [] idA (cs "A") tA (by decide) (by decide) (by decide)
      (by simp)
    rw [htA] at this
    simpa using this
  have h2 : addUser [⟨idA, cs "A", tA⟩] idB (cs "B") tB =
      .ok (⟨idB, cs "B", tB⟩, [⟨idA, cs "A", tA⟩, ⟨idB, cs "B", tB⟩]) := by
    have := addUser_ok [⟨idA, cs "A", tA⟩] idB (cs "B") tB (by decide)
      (by simp [isNicknameExists, jsToLower]; decide) (by simp [MAX_USERS])
      (by simpa using hAB)
    rw [htB] at this
    simpa using this
  have h3 : addUser [⟨idA, cs "A", tA⟩, ⟨idB, cs "B", tB⟩] idC (cs "C") tC =
      .ok (⟨idC, cs "C", tC⟩,
        [⟨idA, cs "A", tA⟩, ⟨idB, cs "B", tB⟩, ⟨idC, cs "C", tC⟩]) := by
    have := addUser_ok [⟨idA, cs "A", tA⟩, ⟨idB, cs "B", tB⟩] idC (cs "C") tC
      (by decide) (by simp [isNicknameExists, jsToLower]; decide)
      (by simp [MAX_USERS]) (by simp; exact ⟨hAC, hBC⟩)
    rw [htC] at this
    simpa using this
  refine ⟨_, _, _, _, _, _, h1, h2, h3, ?_⟩
  rw [hsorted _ ?_]
  · rfl
  · refine List.Pairwise.cons ?_ (List.Pairwise.cons ?_ ?_)
    · intro b hb
      simp only [List.mem_cons, List.not_mem_nil, or_false] at hb
      rcases hb with rfl | rfl
      · exact htAB
      · exact le_trans htAB htBC
    · intro b hb
      simp only [List.mem_cons, List.not_mem_nil, or_false] at hb
      rcases hb with rfl
      exact htBC
    · simp

end RTChat
namespace RTChat

/-- C7 witness: joins of A, B, C at increasing times from distinct
connections list as `["A", "B", "C"]`. -/
theorem C7_nicknames_join_order_witness :
    ∃ uA s1 uB s2 uC s3,
      addUser [] (cs "1") (cs "A") 10 = .ok (uA, s1) ∧
      addUser s1 (cs "2") (cs "B") 20 = .ok (uB, s2) ∧
      addUser s2 (cs "3") (cs "C") 30 = .ok (uC, s3) ∧
      getAllNicknames s3 = [cs "A", cs "B", cs "C"] :=
  C7_nicknames_join_order.2 (cs "1") (cs "2") (cs "3") 10 20 30 (by decide)
    (by decide) (by decide) (by decide) (by decide)

theorem isNicknameExists_false {s : List User} {nick : List Char}
    (h : isNicknameExists s nick = false) :
    ∀ v ∈ s, jsToLower v.nickname ≠ jsToLower (jsTrim nick) := by
  unfold isNicknameExists at h
  simpa using h

theorem RegistryInv_addUser {s : List User} {id nick : List Char} {now : Int}
    {u : User} {s' : List User}
    (hinv : RegistryInv s) (h : addUser s id nick now = .ok (u, s')) :
    RegistryInv s' := by
  obtain ⟨-, hdup, -, -, hs'⟩ := addUser_ok_cases h
  have hforall := isNicknameExists_false hdup
  obtain ⟨hnick, hid⟩ := hinv
  rw [List.pairwise_map] at hnick hid
  subst hs'
  unfold mapSet
  split_ifs with hcase
  · constructor
    · rw [List.pairwise_map, List.pairwise_map]
      refine ((hnick.and hid).imp_of_mem ?_)
      intro a b ha hb hab
      dsimp only
      split_ifs with ha' hb' hb'
      · exact absurd (ha'.trans hb'.symm) hab.2
      · exact fun he => hforall b hb he.symm
      · exact fun he => hforall a ha he
      · exact hab.1
    · have : (s.map fun v => if v.id = id then (⟨id, jsTrim nick, now⟩ : User) else v).map
          (fun u => u.id) = s.map (fun u => u.id) := by
        rw [List.map_map]
        refine List.map_congr_left ?_
        intro v hv
        dsimp only [Function.comp]
        split_ifs with hv'
        · exact hv'.symm
        · rfl
      rw [this]
      rwa [List.pairwise_map]
  · constructor
    · rw [List.map_append, List.pairwise_append]
      refine ⟨by rwa [List.pairwise_map], by simp, ?_⟩
      intro x hx y hy
      simp only [List.map_cons, List.map_nil, List.mem_map, List.mem_singleton] at hx hy
      obtain ⟨v, hv, rfl⟩ := hx
      subst hy
      exact hforall v hv
    · rw [List.map_append, List.pairwise_append]
      refine ⟨by rwa [List.pairwise_map], by simp, ?_⟩
      intro x hx y hy
      simp only [List.map_cons, List.map_nil, List.mem_map, List.mem_singleton] at hx hy
      obtain ⟨v, hv, rfl⟩ := hx
      rw [hy]
      have hnotin : ∀ w ∈ s, ¬(w.id = id) := by simpa using hcase
      simpa using hnotin v hv

theorem RegistryInv_removeUser {s : List User} (id : List Char)
    (hinv : RegistryInv s) : RegistryInv (removeUser s id).2 := by
  unfold removeUser
  obtain ⟨hnick, hid⟩ := hinv
  cases hf : s.find? (fun u => u.id = id) with
  | some u =>
    dsimp only
    exact ⟨hnick.sublist ((List.filter_sublist s).map _),
      hid.sublist ((List.filter_sublist s).map _)⟩
  | none => exact ⟨hnick, hid⟩

/-- C5: in every reachable registry state the active participants'
nicknames are unique case-insensitively; a join accepted from state `s`
makes any case-insensitive duplicate join fail with `nickname-taken`, and
after the original participant leaves (restoring `s`) the same nickname is
accepted again. -/
theorem C5_nickname_unique :
    (∀ s : List User, Reachable s →
      (s.map (fun u => jsToLower u.nickname)).Pairwise (· ≠ ·)) ∧
    (∀ (s : List User) (id1 id2 n1 n2 : List Char) (now1 now2 now3 : Int)
      (u : User) (s1 : List User),
      addUser s id1 n1 now1 = .ok (u, s1) →
      validateNickname n2 = .ok () →
      jsToLower (jsTrim n2) = jsToLower (jsTrim n1) →
      (∀ v ∈ s, v.id ≠ id1) →
      addUser s1 id2 n2 now2 = .error .NICKNAME_TAKEN ∧
      removeUser s1 id1 = (some u, s) ∧
      ∃ u' s'', addUser s id2 n2 now3 = .ok (u', s'')) := by
  constructor
  · intro s hreach
    suffices h : RegistryInv s from h.1
    induction hreach with
    | empty => exact ⟨List.Pairwise.nil, List.Pairwise.nil⟩
    | add _ hadd ih => exact RegistryInv_addUser ih hadd
    | remove _ ih => exact RegistryInv_removeUser _ ih
  · intro s id1 id2 n1 n2 now1 now2 now3 u s1 h1 hval2 hlow hid
    obtain ⟨hval1, hdup1, hlen1, hu, hs1⟩ := addUser_ok_cases h1
    have hs1' : s1 = s ++ [(⟨id1, jsTrim n1, now1⟩ : User)] := by
      rw [hs1]
      unfold mapSet
      rw [if_neg (by simpa using hid)]
    refine ⟨?_, ?_, ?_⟩
    · unfold addUser
      rw [hval2]
      dsimp only
      rw [if_pos ?_]
      unfold isNicknameExists
      rw [hs1']
      simp [hlow]
    · unfold removeUser
      rw [hs1']
      have hfind : (s ++ [(⟨id1, jsTrim n1, now1⟩ : User)]).find?
          (fun v => v.id = id1) = some ⟨id1, jsTrim n1, now1⟩ := by
        rw [List.find?_append, List.find?_eq_none.mpr
          (fun x hx => by simpa using hid x hx)]
        simp [List.find?]
      rw [hfind]
      dsimp only
      rw [List.filter_append]
      rw [List.filter_eq_self.mpr (fun v hv => by simpa using hid v hv)]
      simp [hu]
    · unfold addUser
      rw [hval2]
      dsimp only
      rw [if_neg ?_, if_neg (Nat.not_le.mpr hlen1)]
      · exact ⟨_, _, rfl⟩
      · unfold isNicknameExists at hdup1 ⊢
        rw [hlow]
        simp only [hdup1]
        simp

/-- C5 witness: `Alice` joins the empty room; `ALICE` is then rejected
with `nickname-taken`, and is accepted again once `Alice` leaves. -/
theorem C5_nickname_unique_witness :
    addUser [⟨cs "c1", cs "Alice", 1⟩] (cs "c2") (cs "ALICE") 2 =
      .error .NICKNAME_TAKEN ∧
    removeUser [⟨cs "c1", cs "Alice", 1⟩] (cs "c1") =
      (some ⟨cs "c1", cs "Alice", 1⟩, []) ∧
    ∃ u' s'', addUser [] (cs "c2") (cs "ALICE") 3 = .ok (u', s'') :=
  C5_nickname_unique.2 [] (cs "c1") (cs "c2") (cs "Alice") (cs "ALICE") 1 2 3
    ⟨cs "c1", cs "Alice", 1⟩ [⟨cs "c1", cs "Alice", 1⟩] (by decide) (by decide)
    (by decide) (by simp)

end RTChat
namespace RTChat

/-- C2 witness: a concrete search for `x` over two matching messages, and
a whitespace-only search term yielding the empty result. -/
theorem C2_search_matches_lastN_witness :
    searchMessages [⟨cs "u1", cs "alice", cs "xa"⟩, ⟨cs "u2", cs "bob", cs "xb"⟩]
        (cs "x") 10 =
      lastN (Int.toNat 10)
        ([⟨cs "u1", cs "alice", cs "xa"⟩, ⟨cs "u2", cs "bob", cs "xb"⟩].filter
          (messageMatches (jsTrim (jsToLower (cs "x"))))) ∧
    searchMessages [⟨cs "u1", cs "alice", cs "xa"⟩] (cs "  ") 10 = [] :=
  ⟨C2_search_matches_lastN.2.1
      [⟨cs "u1", cs "alice", cs "xa"⟩, ⟨cs "u2", cs "bob", cs "xb"⟩]
      (cs "x") 10 (by decide) (by decide),
   C2_search_matches_lastN.1 [⟨cs "u1", cs "alice", cs "xa"⟩] (cs "  ") 10
      (by decide)⟩

end RTChat
